import Mathlib

/-!
# Verification of the Diversify.ai extension core

Shallow embedding of the job-analysis extension:
* `popup.js` — profile management (add/remove/persist skills), the analyze
  click handler with its skill-match computation and response validation,
  the in-page extractor (`tryQuerySelectors`, `extractJobDetails`) and the
  content-script message relay;
* the background service worker — the `analyzeJob` fetch chain.

JavaScript string operations used by the code (`toLowerCase`, `trim`,
`split(',')`, `includes`) are embedded as executable functions on the
character list underlying a `String`, so that every definition evaluates
on concrete inputs.
-/

namespace Diversify

/-! ## JavaScript string primitives -/

/-- JS `String.prototype.toLowerCase`, on the basic latin range exercised by
this codebase: each character is lowered via `Char.toLower`. -/
def jsToLower (s : String) : String := ⟨s.data.map Char.toLower⟩

/-- JS `String.prototype.trim`: drop whitespace from both ends. -/
def jsTrim (s : String) : String :=
  ⟨((s.data.dropWhile Char.isWhitespace).reverse.dropWhile Char.isWhitespace).reverse⟩

/-- Predicate `charsLeading pat l = true` iff `pat` occurs at the start of `l`. -/
def charsLeading : List Char → List Char → Bool
  | [], _ => true
  | _ :: _, [] => false
  | a :: as, b :: bs => a == b && charsLeading as bs

/-- Predicate `charsContains pat hay = true` iff `pat` occurs contiguously inside `hay`. -/
def charsContains (pat : List Char) : List Char → Bool
  | [] => pat.isEmpty
  | c :: t => charsLeading pat (c :: t) || charsContains pat t

/-- JS `s.includes(sub)`: substring occurrence test. -/
def jsIncludes (s sub : String) : Bool := charsContains sub.data s.data

/-- Accumulator pass of JS `String.prototype.split` with a one-character
separator: splits at every separator occurrence, keeping empty pieces. -/
def splitCharsAux (sep : Char) : List Char → List Char → List (List Char)
  | [], acc => [acc.reverse]
  | c :: cs, acc =>
    if c == sep then acc.reverse :: splitCharsAux sep cs []
    else splitCharsAux sep cs (c :: acc)

/-- JS `s.split(sep)` for a one-character separator. -/
def jsSplit (s : String) (sep : Char) : List String :=
  (splitCharsAux sep s.data []).map fun l => ⟨l⟩

/-! ## MatchEngine (popup.js, analyze click handler lines 186–195) -/

/-- Source: `analysisData.skills.map(s => s.toLowerCase())` -/
def normalizeJobSkills (skills : List String) : List String := skills.map jsToLower

/-- Source: `userSkills.filter(skill => jobSkills.some(jobSkill =>
jobSkill.includes(skill.toLowerCase())))` -/
def matchingSkills (userSkills jobSkillsRaw : List String) : List String :=
  let jobSkills := normalizeJobSkills jobSkillsRaw
  userSkills.filter fun skill =>
    jobSkills.any fun jobSkill => jsIncludes jobSkill (jsToLower skill)

/-- Source: `jobSkills.filter(skill => !userSkills.some(userSkill =>
skill.toLowerCase().includes(userSkill.toLowerCase())))` -/
def missingSkills (userSkills jobSkillsRaw : List String) : List String :=
  let jobSkills := normalizeJobSkills jobSkillsRaw
  jobSkills.filter fun skill =>
    !(userSkills.any fun userSkill => jsIncludes (jsToLower skill) (jsToLower userSkill))

/-! ## FieldExtractor (popup.js lines 249–257) -/

/-- Source `tryQuerySelectors(selectors)`: the live document is abstracted as the
function `doc` from a selector to the `textContent` of the (zero-or-one)
element `document.querySelector` resolves, `none` when no element matches.
Returns the trimmed text of the first selector whose element has non-empty
trimmed text. -/
def tryQuerySelectors (doc : String → Option String) : List String → Option String
  | [] => none
  | sel :: rest =>
    match doc sel with
    | some txt => if jsTrim txt = "" then tryQuerySelectors doc rest else some (jsTrim txt)
    | none => tryQuerySelectors doc rest

/-- Locator `s` fails on `doc`: no element, or whitespace-only text content. -/
def selFails (doc : String → Option String) (s : String) : Prop :=
  ∀ t, doc s = some t → jsTrim t = ""

/-- A two-locator document: "a" resolves to a whitespace-only element, "b" to
an element whose text trims to "value". -/
def docEx : String → Option String := fun s =>
  if s = "a" then some "   " else if s = "b" then some " value " else none

/-! ## JobDetailExtractor (popup.js lines 259–320) -/

structure JobDetails where
  description : String
  company : String
  title : String
deriving DecidableEq

/-- The live page as the content script consults it: `window.location.hostname`,
the `document.querySelector` resolution (selector ↦ `textContent` of the first
matching element, `none` when nothing matches), and — for the structural
fallback — the raw text contents of the `.jobs-description` container's
`p, li, div` descendants (`none` when that container is absent). -/
structure PageDoc where
  hostname : String
  query : String → Option String
  jobsDescriptionChildren : Option (List String)

def descriptionSelectors : List String :=
  [".jobs-description-content__text", ".jobs-box__html-content", "[data-job-description]",
   "#job-details", ".description__text", "[class*=\"job-details\"]", "[class*=\"description\"]"]

def companySelectors : List String :=
  [".jobs-unified-top-card__company-name", ".jobs-company__name",
   "[data-tracking-control-name*=\"company\"]", "a[href*=\"/company/\"]", "[class*=\"company\"]"]

def titleSelectors : List String :=
  [".jobs-unified-top-card__job-title", ".job-details-jobs-unified-top-card__job-title",
   "[class*=\"job-title\"]", "h1"]

/-- Source `extractJobDetails()`: LinkedIn-scoped extraction with the structural
description fallback, mirroring the source's control flow. -/
def extractJobDetails (doc : PageDoc) : Option JobDetails :=
  if jsIncludes doc.hostname "linkedin.com" then
    let jobDescription := tryQuerySelectors doc.query descriptionSelectors
    let companyName := tryQuerySelectors doc.query companySelectors
    let jobTitle := tryQuerySelectors doc.query titleSelectors
    match jobDescription with
    | none =>
      (match doc.jobsDescriptionChildren with
       | some children =>
         let paragraphs := (children.map jsTrim).filter (· != "")
         if paragraphs.length > 0 then
           some { description := String.intercalate "\n" paragraphs,
                  company := companyName.getD "Unknown Company",
                  title := jobTitle.getD "Job Position" }
         else none
       | none => none)
    | some d =>
      match companyName with
      | some c => some { description := d, company := c, title := jobTitle.getD "Job Position" }
      | none => none
  else none

/-! ## Profile management (popup.js lines 1–117) -/

/-- The comma-separated, trimmed, lowercased, non-empty entries of the skill
input box text: `input.value.trim().toLowerCase().split(',')
.map(s => s.trim()).filter(s => s.length > 0)`. -/
def parsedSkills (input : String) : List String :=
  ((jsSplit (jsToLower (jsTrim input)) ',').map jsTrim).filter fun s => decide (s.length > 0)

/-- One push of `addSkills`: `if (!userSkills.includes(skill))
userSkills.push(skill)` (`includes` on an array is exact equality). -/
def pushUnique (acc : List String) (skill : String) : List String :=
  if skill ∈ acc then acc else acc ++ [skill]

/-- popup.js lines 57–75, the list mutation of `addSkills`: early return on
empty trimmed input, else push each parsed entry not already present. -/
def addSkills (cur : List String) (input : String) : List String :=
  if jsToLower (jsTrim input) = "" then cur
  else (parsedSkills input).foldl pushUnique cur

/-- popup.js lines 102–109: the remove control filters the in-memory list. -/
def removeSkill (skills : List String) (skillToRemove : String) : List String :=
  skills.filter (· != skillToRemove)

/-- The invariant the popup maintains for the stored list: no duplicates, and
every entry is already lowercase (entries only enter through `addSkills`). -/
def SkillsInv (l : List String) : Prop :=
  l.Nodup ∧ ∀ s ∈ l, jsToLower s = s

/-- The persisted profile: `chrome.storage.local` keys `userSkills` and
`profileSetup` (each absent before its first write). -/
structure StorageState where
  userSkills : Option (List String)
  profileSetup : Option Bool
deriving DecidableEq

/-- The popup's state: the in-memory `userSkills` array plus the store. -/
structure PopupState where
  mem : List String
  storage : StorageState
deriving DecidableEq

/-- popup.js lines 5–15 (`saveUserSkills`): writes the in-memory list and
`profileSetup: true` to the store. -/
def saveUserSkills (st : PopupState) : PopupState :=
  { st with storage := { userSkills := some st.mem, profileSetup := some true } }

/-- popup.js lines 102–109: clicking a skill tag's remove control mutates the
in-memory array and re-renders; no save call on this path. -/
def removeSkillClick (st : PopupState) (skillToRemove : String) : PopupState :=
  { st with mem := removeSkill st.mem skillToRemove }

/-- popup.js lines 57–91: the add-skill control parses and pushes, then
persists via `saveUserSkills` (early return, hence no write, on empty
trimmed input). -/
def addSkillsClick (st : PopupState) (input : String) : PopupState :=
  if jsToLower (jsTrim input) = "" then st
  else saveUserSkills { st with mem := addSkills st.mem input }

/-- popup.js lines 113–117: the save-profile button persists the in-memory
list. -/
def saveProfileClick (st : PopupState) : PopupState := saveUserSkills st

/-- popup.js lines 18–45 (DOMContentLoaded): the popup opens with the stored
`userSkills` when present, else with the empty list. -/
def loadPopup (storage : StorageState) : PopupState :=
  { mem := storage.userSkills.getD [], storage := storage }

/-! ## Background service worker (part_000 lines 7–42) -/

/-- The `skills` field of the parsed response body as the popup's shape check
sees it: absent, present but not an array, or an array of strings. -/
inductive SkillsField where
  | absent
  | notArray
  | arr (xs : List String)
deriving DecidableEq

/-- The parsed JSON body of the analysis service's response, restricted to the
fields the popup reads. -/
structure AnalysisData where
  skills : SkillsField
  matchPercentage : Option Nat
  inclusionScore : Option Nat
  supportPrograms : Option (List String)
deriving DecidableEq

/-- Outcome of `fetch('http://localhost:5000/analyze', …)` composed with
`response.json()`. `fetch` resolves for every HTTP status and rejects only on
network failure, so the resolved case carries the status code together with
the body-parse result (`Except.error` = malformed JSON, with the parser's
message). -/
inductive FetchOutcome where
  | networkError (msg : String)
  | resolved (status : Nat) (body : Except String AnalysisData)

/-- The final response the background listener relays: `{success:true, data}`
or `{success:false, error}`. -/
inductive BackgroundReply where
  | success (data : AnalysisData)
  | failure (error : String)
deriving DecidableEq

/-- part_000 lines 22–37, the fetch chain: `.then(r => r.json())` parses the
body regardless of status; `.catch` fires on network failure or parse
failure. The list collects every `sendResponse` call on the path. -/
def backgroundResponses (o : FetchOutcome) : List BackgroundReply :=
  match o with
  | .networkError msg => [.failure msg]
  | .resolved _status (.error msg) => [.failure msg]
  | .resolved _status (.ok data) => [.success data]

/-- A well-formed service response body, used at concrete inputs. -/
def sampleData : AnalysisData :=
  { skills := .arr ["java", "sql"], matchPercentage := some 50,
    inclusionScore := some 3, supportPrograms := some ["ERG"] }

/-! ## Content-script relay (popup.js lines 322–366) -/

/-- What the content script's listener sends back to the popup: a bare
`{error}` object, or the background's reply forwarded verbatim. -/
inductive ContentReply where
  | errorField (msg : String)
  | forwarded (r : BackgroundReply)
deriving DecidableEq

/-- Outcome of `chrome.runtime.sendMessage({type:'analyzeJob', …})` as seen in
the content script's callback. -/
inductive CommOutcome where
  | runtimeError (msg : String)
  | noResponse
  | replied (r : BackgroundReply)
deriving DecidableEq

/-- popup.js lines 322–366: the listener for the `analyze` action. The list
collects each `sendResponse` invocation on the path determined by the
extraction result and (when extraction succeeded) the communication outcome.
`response.error` is truthy iff the failure's error text is non-empty. -/
def contentResponses (extracted : Option JobDetails) (comm : CommOutcome) :
    List ContentReply :=
  match extracted with
  | none =>
    [.errorField "Could not find job details. Please make sure you're on a LinkedIn job posting page."]
  | some _ =>
    match comm with
    | .runtimeError msg => [.errorField ("Extension communication error: " ++ msg)]
    | .noResponse => [.errorField "Extension error: No response from background service."]
    | .replied (.failure e) =>
      if e = "" then [.forwarded (.failure e)] else [.errorField e]
    | .replied (.success d) => [.forwarded (.success d)]

/-! ## Popup analyze handler (popup.js lines 151–246) -/

inductive PopupAction where
  | showErrorMsg (msg : String)
  | sendAnalyzeMessage
deriving DecidableEq

/-- popup.js lines 151–158: the URL guard in the analyze click handler; `url`
is `tabs[0]?.url` (`none` when the active tab or its URL is absent). Only
`sendAnalyzeMessage` leads to extraction and, further down the chain, to the
network request. -/
def analyzeClickAction (url : Option String) : PopupAction :=
  match url with
  | some u =>
    if jsIncludes u "linkedin.com/jobs" then .sendAnalyzeMessage
    else .showErrorMsg "Please navigate to a LinkedIn job posting first."
  | none => .showErrorMsg "Please navigate to a LinkedIn job posting first."

/-- What the popup does with relayed analysis data. -/
inductive RenderOutcome where
  | errorShown (msg : String)
  | rendered (matchPercent : Nat) (matching missing : List String)
deriving DecidableEq

/-- popup.js lines 180–245, the `try` block over `analysisData`: the shape
check throws `'Invalid skills format from server'` unless `skills` is an
array; the `catch` shows `'Error processing job details: ' + message` and
renders nothing; otherwise the match report is computed and rendered
(`matchPercentage || 0`). -/
def processAnalysisData (userSkills : List String) (d : AnalysisData) : RenderOutcome :=
  match d.skills with
  | .arr skills =>
    .rendered (d.matchPercentage.getD 0) (matchingSkills userSkills skills)
      (missingSkills userSkills skills)
  | _ => .errorShown ("Error processing job details: " ++ "Invalid skills format from server")

/-! ## Facts about the primitives -/

theorem toNat_ofNat_shift {n : Nat} (h1 : 65 ≤ n) (h2 : n ≤ 90) :
    (Char.ofNat (n + 32)).toNat = n + 32 := by
  have hv : (n + 32).isValidChar := by
    left
    omega
  rw [Char.ofNat, dif_pos hv]
  simp [Char.ofNatAux, Char.toNat, UInt32.toNat, UInt32.ofNat', BitVec.toNat_ofNatLt]

theorem char_toLower_idem (c : Char) : c.toLower.toLower = c.toLower := by
  unfold Char.toLower
  by_cases h : c.toNat ≥ 65 ∧ c.toNat ≤ 90
  · rw [if_pos h]
    have := toNat_ofNat_shift h.1 h.2
    rw [if_neg]
    omega
  · rw [if_neg h, if_neg h]

theorem jsToLower_idem (s : String) : jsToLower (jsToLower s) = jsToLower s := by
  simp only [jsToLower, List.map_map]
  congr 1
  apply List.map_congr_left
  intro a _
  exact char_toLower_idem a

/-- Every character of a lowercased string is fixed by `Char.toLower`. -/
theorem mem_jsToLower_fixed {c : Char} {s : String} (h : c ∈ (jsToLower s).data) :
    c.toLower = c := by
  simp only [jsToLower, List.mem_map] at h
  obtain ⟨a, _, rfl⟩ := h
  exact char_toLower_idem a

/-- Strings all of whose characters are toLower-fixed are fixed by
`jsToLower`. -/
theorem lowerFixed_of_chars {s : String} (h : ∀ c ∈ s.data, c.toLower = c) :
    jsToLower s = s := by
  have hmap : s.data.map Char.toLower = s.data := by
    conv_rhs => rw [← List.map_id s.data]
    exact List.map_congr_left h
  cases s with
  | mk l =>
    simp only [jsToLower] at *
    rw [hmap]

/-- Characters of a trimmed string come from the original string. -/
theorem chars_jsTrim {c : Char} {s : String} (h : c ∈ (jsTrim s).data) : c ∈ s.data := by
  simp only [jsTrim] at h
  rw [List.mem_reverse] at h
  have h1 := (List.dropWhile_sublist _).subset h
  rw [List.mem_reverse] at h1
  exact (List.dropWhile_sublist _).subset h1

/-- Characters of every piece produced by `splitCharsAux` come from the
accumulator or the remaining input. -/
theorem chars_splitCharsAux (sep : Char) :
    ∀ (l acc : List Char), ∀ piece ∈ splitCharsAux sep l acc, ∀ c ∈ piece, c ∈ acc ∨ c ∈ l := by
  intro l
  induction l with
  | nil =>
    intro acc piece hp c hc
    simp only [splitCharsAux, List.mem_singleton] at hp
    subst hp
    exact Or.inl (List.mem_reverse.mp hc)
  | cons b bs ih =>
    intro acc piece hp c hc
    simp only [splitCharsAux] at hp
    by_cases hb : b == sep
    · rw [if_pos hb] at hp
      rcases List.mem_cons.mp hp with rfl | hp'
      · exact Or.inl (List.mem_reverse.mp hc)
      · rcases ih [] piece hp' c hc with h | h
        · exact absurd h (List.not_mem_nil c)
        · exact Or.inr (List.mem_cons_of_mem _ h)
    · rw [if_neg hb] at hp
      rcases ih (b :: acc) piece hp c hc with h | h
      · rcases List.mem_cons.mp h with rfl | h'
        · exact Or.inr (List.mem_cons_self _ _)
        · exact Or.inl h'
      · exact Or.inr (List.mem_cons_of_mem _ h)

/-- Characters of a `jsSplit` piece come from the split string. -/
theorem chars_jsSplit {p s : String} {sep : Char} (hp : p ∈ jsSplit s sep)
    {c : Char} (hc : c ∈ p.data) : c ∈ s.data := by
  simp only [jsSplit, List.mem_map] at hp
  obtain ⟨piece, hpiece, rfl⟩ := hp
  rcases chars_splitCharsAux sep s.data [] piece hpiece c hc with h | h
  · exact absurd h (List.not_mem_nil c)
  · exact h

/-- Every entry `addSkills` parses from the input box is already lowercase. -/
theorem parsedSkills_lower (input : String) :
    ∀ e ∈ parsedSkills input, jsToLower e = e := by
  intro e he
  simp only [parsedSkills, List.mem_filter, List.mem_map] at he
  obtain ⟨⟨piece, hpiece, rfl⟩, -⟩ := he
  apply lowerFixed_of_chars
  intro c hc
  exact mem_jsToLower_fixed (chars_jsSplit hpiece (chars_jsTrim hc))

theorem mem_foldl_pushUnique (ns : List String) :
    ∀ (cur : List String) (x : String),
      x ∈ ns.foldl pushUnique cur ↔ x ∈ cur ∨ x ∈ ns := by
  induction ns with
  | nil => simp
  | cons a ns ih =>
    intro cur x
    rw [List.foldl_cons, ih]
    by_cases ha : a ∈ cur
    · rw [pushUnique, if_pos ha]
      constructor
      · rintro (h | h)
        · exact Or.inl h
        · exact Or.inr (List.mem_cons_of_mem _ h)
      · rintro (h | h)
        · exact Or.inl h
        · rcases List.mem_cons.mp h with rfl | h'
          · exact Or.inl ha
          · exact Or.inr h'
    · rw [pushUnique, if_neg ha]
      simp only [List.mem_append, List.mem_singleton, List.mem_cons]
      tauto

theorem nodup_foldl_pushUnique (ns : List String) :
    ∀ cur : List String, cur.Nodup → (ns.foldl pushUnique cur).Nodup := by
  induction ns with
  | nil =>
    intro cur h
    exact h
  | cons a ns ih =>
    intro cur h
    rw [List.foldl_cons]
    apply ih
    by_cases ha : a ∈ cur
    · rwa [pushUnique, if_pos ha]
    · rw [pushUnique, if_neg ha]
      simp [List.nodup_append, h, ha]

theorem foldl_pushUnique_ext (ns : List String) :
    ∀ cur : List String, ∃ ext, ns.foldl pushUnique cur = cur ++ ext := by
  induction ns with
  | nil =>
    intro cur
    exact ⟨[], by simp⟩
  | cons a ns ih =>
    intro cur
    rw [List.foldl_cons]
    by_cases ha : a ∈ cur
    · rw [pushUnique, if_pos ha]
      exact ih cur
    · rw [pushUnique, if_neg ha]
      obtain ⟨ext, hext⟩ := ih (cur ++ [a])
      exact ⟨a :: ext, by rw [hext]; simp⟩

theorem skillsInv_map_nodup {l : List String} (h : SkillsInv l) :
    (l.map jsToLower).Nodup := by
  have hmap : l.map jsToLower = l := by
    conv_rhs => rw [← List.map_id l]
    exact List.map_congr_left h.2
  rw [hmap]
  exact h.1

theorem removeSkill_inv (l : List String) (x : String) (h : SkillsInv l) :
    SkillsInv (removeSkill l x) := by
  refine ⟨h.1.filter _, ?_⟩
  intro s hs
  exact h.2 s (List.mem_of_mem_filter hs)

/-! ## FieldExtractor characterization -/

theorem tryQuerySelectors_eq_none_iff (doc : String → Option String) (sels : List String) :
    tryQuerySelectors doc sels = none ↔ ∀ s ∈ sels, selFails doc s := by
  induction sels with
  | nil => simp [tryQuerySelectors]
  | cons sel rest ih =>
    cases h : doc sel with
    | none =>
      simp only [tryQuerySelectors, h]
      rw [ih]
      constructor
      · intro hall s hs
        rcases List.mem_cons.mp hs with rfl | hs'
        · intro t hds
          rw [h] at hds
          cases hds
        · exact hall s hs'
      · intro hall s hs
        exact hall s (List.mem_cons_of_mem _ hs)
    | some txt =>
      simp only [tryQuerySelectors, h]
      by_cases ht : jsTrim txt = ""
      · rw [if_pos ht, ih]
        constructor
        · intro hall s hs
          rcases List.mem_cons.mp hs with rfl | hs'
          · intro t hds
            rw [h] at hds
            cases hds
            exact ht
          · exact hall s hs'
        · intro hall s hs
          exact hall s (List.mem_cons_of_mem _ hs)
      · rw [if_neg ht]
        constructor
        · intro habs
          cases habs
        · intro hall
          exact absurd (hall sel (List.mem_cons_self _ _) txt h) ht

theorem skip_head_iff (doc : String → Option String) (sel : String) (rest : List String)
    (v : String) (hsel : selFails doc sel) :
    (∃ pre s post, sel :: rest = pre ++ s :: post ∧ (∀ s' ∈ pre, selFails doc s') ∧
        ∃ t, doc s = some t ∧ jsTrim t = v ∧ v ≠ "") ↔
    (∃ pre s post, rest = pre ++ s :: post ∧ (∀ s' ∈ pre, selFails doc s') ∧
        ∃ t, doc s = some t ∧ jsTrim t = v ∧ v ≠ "") := by
  constructor
  · rintro ⟨pre, s, post, heq, hpre, t, hds, htv, hv⟩
    cases pre with
    | nil =>
      simp only [List.nil_append, List.cons.injEq] at heq
      obtain ⟨rfl, rfl⟩ := heq
      exact absurd (htv.symm.trans (hsel t hds)) hv
    | cons p pre' =>
      simp only [List.cons_append, List.cons.injEq] at heq
      obtain ⟨rfl, heq'⟩ := heq
      exact ⟨pre', s, post, heq', fun s' hs' => hpre s' (List.mem_cons_of_mem _ hs'),
        t, hds, htv, hv⟩
  · rintro ⟨pre, s, post, heq, hpre, t, hds, htv, hv⟩
    refine ⟨sel :: pre, s, post, by rw [heq, List.cons_append], ?_, t, hds, htv, hv⟩
    intro s' hs'
    rcases List.mem_cons.mp hs' with rfl | hs'
    · exact hsel
    · exact hpre s' hs'

theorem tryQuerySelectors_eq_some_iff (doc : String → Option String) (sels : List String)
    (v : String) :
    tryQuerySelectors doc sels = some v ↔
      ∃ pre s post, sels = pre ++ s :: post ∧ (∀ s' ∈ pre, selFails doc s') ∧
        ∃ t, doc s = some t ∧ jsTrim t = v ∧ v ≠ "" := by
  induction sels with
  | nil =>
    simp only [tryQuerySelectors]
    constructor
    · intro habs
      cases habs
    · rintro ⟨pre, s, post, habs, -⟩
      have := congrArg List.length habs
      simp at this
      omega
  | cons sel rest ih =>
    cases h : doc sel with
    | none =>
      simp only [tryQuerySelectors, h]
      rw [ih, skip_head_iff]
      intro t hds
      rw [h] at hds
      cases hds
    | some txt =>
      simp only [tryQuerySelectors, h]
      by_cases ht : jsTrim txt = ""
      · rw [if_pos ht, ih, skip_head_iff]
        intro t hds
        rw [h] at hds
        cases hds
        exact ht
      · rw [if_neg ht]
        constructor
        · intro hv
          cases hv
          exact ⟨[], sel, rest, rfl, by simp, txt, h, rfl, ht⟩
        · rintro ⟨pre, s, post, heq, hpre, t, hds, htv, hv⟩
          cases pre with
          | nil =>
            simp only [List.nil_append, List.cons.injEq] at heq
            obtain ⟨rfl, rfl⟩ := heq
            rw [h] at hds
            cases hds
            rw [htv]
          | cons p pre' =>
            simp only [List.cons_append, List.cons.injEq] at heq
            obtain ⟨rfl, -⟩ := heq
            exact absurd (hpre sel (List.mem_cons_self _ _) txt h) ht

/-! ## Claim theorems -/

/-- Claim C1: After lowercasing both sides, `matchingSkills` is exactly the user
skills contained as a substring in some job skill, `missingSkills` is exactly
the (normalized) job skills containing no user skill; the spec's two concrete
examples hold, and with no user skills every job skill is missing. -/
theorem computeMatch_spec (userSkills jobSkills : List String) :
    (∀ s, s ∈ matchingSkills userSkills jobSkills ↔
        s ∈ userSkills ∧ ∃ j ∈ jobSkills, jsIncludes (jsToLower j) (jsToLower s) = true) ∧
    (∀ j, j ∈ missingSkills userSkills jobSkills ↔
        j ∈ jobSkills.map jsToLower ∧
          ∀ u ∈ userSkills, jsIncludes j (jsToLower u) = false) ∧
    matchingSkills ["python", "sql"] ["Python Developer", "SQL Expert", "Excel"]
        = ["python", "sql"] ∧
    missingSkills ["python", "sql"] ["Python Developer", "SQL Expert", "Excel"]
        = ["excel"] ∧
    (∀ js, matchingSkills [] js = [] ∧ missingSkills [] js = js.map jsToLower) := by
  refine ⟨?_, ?_, by decide, by decide, ?_⟩
  · intro s
    simp only [matchingSkills, normalizeJobSkills, List.mem_filter, List.any_eq_true,
      List.mem_map]
    constructor
    · rintro ⟨hs, j', ⟨j, hj, rfl⟩, hinc⟩
      exact ⟨hs, j, hj, hinc⟩
    · rintro ⟨hs, j, hj, hinc⟩
      exact ⟨hs, jsToLower j, ⟨j, hj, rfl⟩, hinc⟩
  · intro j
    simp only [missingSkills, normalizeJobSkills, List.mem_filter, Bool.not_eq_true',
      List.any_eq_false, List.mem_map]
    constructor
    · rintro ⟨⟨x, hx, rfl⟩, hall⟩
      refine ⟨⟨x, hx, rfl⟩, ?_⟩
      intro u hu
      simpa [jsToLower_idem] using hall u hu
    · rintro ⟨⟨x, hx, rfl⟩, hall⟩
      refine ⟨⟨x, hx, rfl⟩, ?_⟩
      intro u hu
      simpa [jsToLower_idem] using hall u hu
  · intro js
    constructor
    · simp [matchingSkills]
    · simp [missingSkills, normalizeJobSkills]

/-- Claim C3: The field extractor tries locators in declared order and returns
the trimmed text of the first locator whose element has non-empty trimmed
text; it returns `none` exactly when every locator fails; and with a
whitespace-only first entry and a non-empty second entry, the second entry's
trimmed value is returned. -/
theorem fieldExtractor_order_spec (doc : String → Option String) (sels : List String) :
    (tryQuerySelectors doc sels = none ↔ ∀ s ∈ sels, selFails doc s) ∧
    (∀ v, tryQuerySelectors doc sels = some v ↔
      ∃ pre s post, sels = pre ++ s :: post ∧ (∀ s' ∈ pre, selFails doc s') ∧
        ∃ t, doc s = some t ∧ jsTrim t = v ∧ v ≠ "") ∧
    (∀ s1 s2 t1 t2, doc s1 = some t1 → jsTrim t1 = "" → doc s2 = some t2 →
      jsTrim t2 ≠ "" → tryQuerySelectors doc [s1, s2] = some (jsTrim t2)) := by
  refine ⟨tryQuerySelectors_eq_none_iff doc sels,
    fun v => tryQuerySelectors_eq_some_iff doc sels v, ?_⟩
  intro s1 s2 t1 t2 h1 ht1 h2 ht2
  simp [tryQuerySelectors, h1, h2, ht1, ht2]

/-- Witness for C3 at a concrete document. -/
theorem fieldExtractor_order_witness :
    tryQuerySelectors docEx ["a", "b"] = some "value" := by
  have h := (fieldExtractor_order_spec docEx ["a", "b"]).2.2 "a" "b" "   " " value "
    (by decide) (by decide) (by decide) (by decide)
  exact h.trans (by decide)

/-- Claim C4: The structural description fallback runs only when the primary
description locator list yields nothing (the result does not depend on the
fallback container data when a primary description resolved); when it fires
it joins the non-empty trimmed child texts with newlines, returning
immediately with company defaulting to "Unknown Company" and title to
"Job Position"; and the spec's three-child example joins to
"Responsibilities: code\nBenefits: great". -/
theorem structural_fallback_spec (doc : PageDoc) :
    (∀ children, jsIncludes doc.hostname "linkedin.com" = true →
      tryQuerySelectors doc.query descriptionSelectors = none →
      doc.jobsDescriptionChildren = some children →
      ((children.map jsTrim).filter (· != "")) ≠ [] →
      extractJobDetails doc = some {
        description := String.intercalate "\n" ((children.map jsTrim).filter (· != "")),
        company := (tryQuerySelectors doc.query companySelectors).getD "Unknown Company",
        title := (tryQuerySelectors doc.query titleSelectors).getD "Job Position" }) ∧
    (∀ d, tryQuerySelectors doc.query descriptionSelectors = some d →
      ∀ alt, extractJobDetails { doc with jobsDescriptionChildren := alt }
           = extractJobDetails { doc with jobsDescriptionChildren := none }) ∧
    String.intercalate "\n"
        ((["", "Responsibilities: code", "Benefits: great"].map jsTrim).filter (· != ""))
      = "Responsibilities: code\nBenefits: great" := by
  refine ⟨?_, ?_, by decide⟩
  · intro children hhost hdesc hchild hne
    have hlen : ((children.map jsTrim).filter (· != "")).length > 0 :=
      List.length_pos.mpr hne
    simp only [extractJobDetails, hhost, if_true, hdesc, hchild, if_pos hlen]
  · intro d hdesc alt
    by_cases hhost : jsIncludes doc.hostname "linkedin.com" = true
    · simp only [extractJobDetails, hhost, if_true, hdesc]
    · have hhost' : jsIncludes doc.hostname "linkedin.com" = false :=
        Bool.eq_false_iff.mpr hhost
      simp only [extractJobDetails, hhost', Bool.false_eq_true, if_false]

/-- Witness for C4: a page whose primary description locators all fail, with
the spec's three-child fallback container. -/
theorem structural_fallback_witness :
    extractJobDetails
        { hostname := "www.linkedin.com", query := fun _ => none,
          jobsDescriptionChildren := some ["", "Responsibilities: code", "Benefits: great"] }
      = some { description := "Responsibilities: code\nBenefits: great",
               company := "Unknown Company", title := "Job Position" } := by
  have h := (structural_fallback_spec
      { hostname := "www.linkedin.com", query := fun _ => none,
        jobsDescriptionChildren := some ["", "Responsibilities: code", "Benefits: great"] }).1
    ["", "Responsibilities: code", "Benefits: great"]
    (by decide) (by decide) rfl (by decide)
  exact h.trans (by decide)

/-- Claim C2, amended: The background relays `success: false` with an error
text for a network error and for a malformed (non-JSON) body; but the HTTP
status is never consulted: a `success: true` analyzeResponse is produced for
every response whose body parses, 2xx or not. -/
theorem background_transport_spec :
    (∀ msg, backgroundResponses (.networkError msg) = [.failure msg]) ∧
    (∀ status msg, backgroundResponses (.resolved status (.error msg)) = [.failure msg]) ∧
    (∀ status data, backgroundResponses (.resolved status (.ok data)) = [.success data]) ∧
    (∀ s1 s2 body, backgroundResponses (.resolved s1 body)
        = backgroundResponses (.resolved s2 body)) := by
  refine ⟨fun _ => rfl, fun _ _ => rfl, fun _ _ => rfl, fun s1 s2 body => ?_⟩
  cases body <;> rfl

/-- Claim C2, counterexample to the claim as stated: 500 is not a 2xx status,
yet with a well-formed JSON body the background relays `success: true`, not a
transportError. -/
theorem background_non2xx_counterexample :
    ¬(200 ≤ 500 ∧ 500 < 300) ∧
    backgroundResponses (.resolved 500 (.ok sampleData)) = [.success sampleData] :=
  ⟨by omega, rfl⟩

/-- Claim C5: On every path — extraction failure, runtime error, absent response,
relayed service failure, relayed service success on the content-script side;
network error, malformed body, parsed body on the background side — exactly
one `sendResponse` is invoked. -/
theorem exactly_one_response (extracted : Option JobDetails) (comm : CommOutcome)
    (o : FetchOutcome) :
    (contentResponses extracted comm).length = 1 ∧
    (backgroundResponses o).length = 1 := by
  constructor
  · rcases extracted with - | jd
    · rfl
    · rcases comm with msg | - | r
      · rfl
      · rfl
      · rcases r with d | e
        · rfl
        · by_cases he : e = "" <;> simp [contentResponses, he]
  · rcases o with msg | ⟨status, body⟩
    · rfl
    · cases body <;> rfl

/-- Claim C6: When the relayed result's `skills` field is absent or not an
array, the popup shows an error citing "Invalid skills format" and renders no
match report; when it is an array, categorization and rendering proceed. -/
theorem invalid_skills_validation (userSkills : List String) (d : AnalysisData) :
    ((d.skills = .absent ∨ d.skills = .notArray) →
      (∃ msg, processAnalysisData userSkills d = .errorShown msg ∧
        jsIncludes msg "Invalid skills format" = true) ∧
      ∀ p m ms, processAnalysisData userSkills d ≠ .rendered p m ms) ∧
    (∀ xs, d.skills = .arr xs →
      processAnalysisData userSkills d =
        .rendered (d.matchPercentage.getD 0) (matchingSkills userSkills xs)
          (missingSkills userSkills xs)) := by
  constructor
  · intro hbad
    have hform : processAnalysisData userSkills d =
        .errorShown ("Error processing job details: " ++ "Invalid skills format from server") := by
      rcases hbad with h | h <;> simp [processAnalysisData, h]
    refine ⟨⟨_, hform, by decide⟩, ?_⟩
    intro p m ms hrend
    rw [hform] at hrend
    cases hrend
  · intro xs hxs
    simp [processAnalysisData, hxs]

/-- Witness for C6: a body whose `skills` field is absent. -/
theorem invalid_skills_validation_witness :
    ∃ msg, processAnalysisData []
        { skills := .absent, matchPercentage := none, inclusionScore := none,
          supportPrograms := none } = .errorShown msg ∧
      jsIncludes msg "Invalid skills format" = true :=
  ((invalid_skills_validation []
      { skills := .absent, matchPercentage := none, inclusionScore := none,
        supportPrograms := none }).1 (Or.inl rfl)).1

/-- Claim C8: On a URL that does not contain "linkedin.com/jobs" the analyze
click shows the navigate-first error and never sends the analyze message (the
only path toward a network call); and the in-page extractor returns `none` on
an unrecognized hostname, independent of the document contents — no locator
is consulted. -/
theorem host_mismatch_guard :
    (∀ u, jsIncludes u "linkedin.com/jobs" = false →
      analyzeClickAction (some u) =
          .showErrorMsg "Please navigate to a LinkedIn job posting first." ∧
      analyzeClickAction (some u) ≠ .sendAnalyzeMessage) ∧
    analyzeClickAction none ≠ .sendAnalyzeMessage ∧
    (∀ doc : PageDoc, jsIncludes doc.hostname "linkedin.com" = false →
      extractJobDetails doc = none ∧
      ∀ q c, extractJobDetails
          { hostname := doc.hostname, query := q, jobsDescriptionChildren := c } = none) := by
  refine ⟨?_, by simp [analyzeClickAction], ?_⟩
  · intro u hu
    constructor
    · simp [analyzeClickAction, hu]
    · simp [analyzeClickAction, hu]
  · intro doc hdoc
    constructor
    · simp [extractJobDetails, hdoc]
    · intro q c
      simp [extractJobDetails, hdoc]

/-- Witness for C8 on a non-job-site URL and hostname. -/
theorem host_mismatch_guard_witness :
    analyzeClickAction (some "https://example.com/jobs") =
        .showErrorMsg "Please navigate to a LinkedIn job posting first." ∧
    extractJobDetails
        { hostname := "example.com", query := docEx,
          jobsDescriptionChildren := some ["text"] } = none :=
  ⟨(host_mismatch_guard.1 "https://example.com/jobs" (by decide)).1,
   ((host_mismatch_guard.2.2
      { hostname := "example.com", query := docEx,
        jobsDescriptionChildren := some ["text"] } (by decide)).1)⟩

/-- Claim C9: The remove control mutates only the in-memory list: the persisted
`userSkills` and `profileSetup` are unchanged by every remove, the removed
skill is gone from memory, and if it was persisted it is present again after
the next load from storage. -/
theorem remove_is_memory_only (st : PopupState) (skill : String) :
    (removeSkillClick st skill).storage = st.storage ∧
    (removeSkillClick st skill).storage.userSkills = st.storage.userSkills ∧
    (removeSkillClick st skill).storage.profileSetup = st.storage.profileSetup ∧
    skill ∉ (removeSkillClick st skill).mem ∧
    (skill ∈ st.storage.userSkills.getD [] →
      skill ∈ (loadPopup (removeSkillClick st skill).storage).mem) := by
  refine ⟨rfl, rfl, rfl, ?_, ?_⟩
  · simp [removeSkillClick, removeSkill, List.mem_filter]
  · intro hmem
    simpa [loadPopup, removeSkillClick] using hmem

/-- Witness for C9: removing a persisted skill leaves the store intact and the
skill reappears on reload. -/
theorem remove_is_memory_only_witness :
    "python" ∉ (removeSkillClick
        { mem := ["python", "sql"],
          storage := { userSkills := some ["python", "sql"], profileSetup := some true } }
        "python").mem ∧
    "python" ∈ (loadPopup (removeSkillClick
        { mem := ["python", "sql"],
          storage := { userSkills := some ["python", "sql"], profileSetup := some true } }
        "python").storage).mem := by
  have h := remove_is_memory_only
    { mem := ["python", "sql"],
      storage := { userSkills := some ["python", "sql"], profileSetup := some true } }
    "python"
  exact ⟨h.2.2.2.1, h.2.2.2.2 (by decide)⟩

/-- Claim C7: After an add, the stored list contains each parsed
(comma-separated, trimmed, lowercased, non-empty) entry exactly once —
entries already present are not re-added — with the existing list kept as an
unchanged initial segment (order of first insertion preserved); the
no-duplicates/all-lowercase invariant, and with it case-insensitive
uniqueness, is preserved by every add and every remove; and adding
"Python, SQL, python" to an empty profile stores ["python", "sql"]. -/
theorem addSkills_spec (cur : List String) (input : String) (hinv : SkillsInv cur) :
    (∀ e ∈ parsedSkills input, (addSkills cur input).count e = 1) ∧
    (∃ ext, addSkills cur input = cur ++ ext) ∧
    SkillsInv (addSkills cur input) ∧
    ((addSkills cur input).map jsToLower).Nodup ∧
    (∀ (l : List String) x, SkillsInv l →
      SkillsInv (removeSkill l x) ∧ ((removeSkill l x).map jsToLower).Nodup) ∧
    addSkills [] "Python, SQL, python" = ["python", "sql"] := by
  have hremove : ∀ (l : List String) x, SkillsInv l →
      SkillsInv (removeSkill l x) ∧ ((removeSkill l x).map jsToLower).Nodup :=
    fun l x hl => ⟨removeSkill_inv l x hl, skillsInv_map_nodup (removeSkill_inv l x hl)⟩
  by_cases hempty : jsToLower (jsTrim input) = ""
  · have hparsed : parsedSkills input = [] := by
      unfold parsedSkills
      rw [hempty]
      rfl
    have haddeq : addSkills cur input = cur := by
      unfold addSkills
      rw [if_pos hempty]
    refine ⟨?_, ⟨[], by rw [haddeq, List.append_nil]⟩, by rwa [haddeq], ?_, hremove, by decide⟩
    · intro e he
      rw [hparsed] at he
      exact absurd he (List.not_mem_nil e)
    · rw [haddeq]
      exact skillsInv_map_nodup hinv
  · have haddeq : addSkills cur input = (parsedSkills input).foldl pushUnique cur := by
      unfold addSkills
      rw [if_neg hempty]
    have hnodup : (addSkills cur input).Nodup := by
      rw [haddeq]
      exact nodup_foldl_pushUnique _ cur hinv.1
    have hinv' : SkillsInv (addSkills cur input) := by
      refine ⟨hnodup, ?_⟩
      intro s hs
      rw [haddeq, mem_foldl_pushUnique] at hs
      rcases hs with h | h
      · exact hinv.2 s h
      · exact parsedSkills_lower input s h
    refine ⟨?_, ?_, hinv', skillsInv_map_nodup hinv', hremove, by decide⟩
    · intro e he
      apply List.count_eq_one_of_mem hnodup
      rw [haddeq, mem_foldl_pushUnique]
      exact Or.inr he
    · rw [haddeq]
      exact foldl_pushUnique_ext _ cur

/-- Witness for C7 on the empty profile and the spec's round-trip input. -/
theorem addSkills_spec_witness :
    addSkills [] "Python, SQL, python" = ["python", "sql"] :=
  (addSkills_spec [] "Python, SQL, python"
    ⟨List.nodup_nil, by simp⟩).2.2.2.2.2

/-- Claim C10: Every rendered matching entry is one of the user's stored skill
strings verbatim, while every rendered missing entry is the lowercase
normalization of some job skill the service returned (and is itself in
normalized form). -/
theorem rendered_entries_provenance (userSkills jobSkillsRaw : List String) :
    (∀ s ∈ matchingSkills userSkills jobSkillsRaw, s ∈ userSkills) ∧
    (∀ s ∈ missingSkills userSkills jobSkillsRaw, ∃ j ∈ jobSkillsRaw, s = jsToLower j) ∧
    (∀ s ∈ missingSkills userSkills jobSkillsRaw, jsToLower s = s) := by
  refine ⟨?_, ?_, ?_⟩
  · intro s hs
    exact (List.mem_filter.mp hs).1
  · intro s hs
    have := (List.mem_filter.mp hs).1
    simp only [normalizeJobSkills, List.mem_map] at this
    obtain ⟨j, hj, rfl⟩ := this
    exact ⟨j, hj, rfl⟩
  · intro s hs
    have := (List.mem_filter.mp hs).1
    simp only [normalizeJobSkills, List.mem_map] at this
    obtain ⟨j, hj, rfl⟩ := this
    exact jsToLower_idem j

/-- Witness for C10: the matching entry keeps the user's casing ("SQL"), the
missing entry is the lowercased job skill ("excel" for "Excel"). -/
theorem rendered_entries_provenance_witness :
    ("SQL" ∈ (["SQL"] : List String)) ∧
    (∃ j ∈ (["Excel"] : List String), "excel" = jsToLower j) :=
  ⟨(rendered_entries_provenance ["SQL"] ["sql server"]).1 "SQL" (by decide),
   (rendered_entries_provenance ["python"] ["Excel"]).2.1 "excel" (by decide)⟩

/-- Witness for C1: the spec's concrete example, extracted from the general
theorem. -/
theorem computeMatch_spec_witness :
    matchingSkills ["python", "sql"] ["Python Developer", "SQL Expert", "Excel"]
      = ["python", "sql"] :=
  (computeMatch_spec [] []).2.2.1

/-- Witness for C2 (amended) at a concrete parsed body. -/
theorem background_transport_spec_witness :
    backgroundResponses (.resolved 200 (.ok sampleData)) = [.success sampleData] :=
  background_transport_spec.2.2.1 200 sampleData

/-- Witness for C5 on one concrete path of each handler. -/
theorem exactly_one_response_witness :
    (contentResponses none .noResponse).length = 1 ∧
    (backgroundResponses (.networkError "fetch failed")).length = 1 :=
  exactly_one_response none .noResponse (.networkError "fetch failed")

end Diversify
